import Mathlib

/-!
Verification development for a vision-language training repository.

The repository has two source files:
* `CLIP/train.py` — training orchestration: learning-rate schedule
  (`Trainer.get_lr`), resilient batch fetching (`Trainer.train_loop`),
  evaluation averaging (`Trainer.evaluate`) and the checkpoint policy in
  `Trainer.train`.
* `tinymm/ALBEF/model.py` — the multimodal model: contrastive (ITC) loss,
  masked-token (MLM) loss, and their unweighted sum in `ALBEF.forward`.

Each Python routine is embedded shallowly below.  Machine floats are
modelled by `ℝ` (for the schedule and losses) or `ℚ` (for the purely
rational accumulator arithmetic); a Python `assert` failure, an uncaught
exception or a division by zero is modelled by `Option.none`.
-/

namespace CLIPTrain

/-- The hyperparameter record `TrainConfig` from `CLIP/train.py`, restricted
to the fields the learning-rate schedule reads. -/
structure TrainConfig where
  lr : ℝ
  min_lr : ℝ
  warmup_iters : ℕ
  lr_decay_iters : ℕ

/-- The dataclass defaults of `TrainConfig` in `CLIP/train.py`. -/
noncomputable def defaultConfig : TrainConfig :=
  { lr := 1e-4, min_lr := 1e-6, warmup_iters := 2000, lr_decay_iters := 128000 }

/-- The decay fraction computed in the cosine branch of `Trainer.get_lr`:
`(iteration - warmup_iters) / (lr_decay_iters - warmup_iters)` as real
arithmetic on Python ints. -/
noncomputable def decay_ratio (c : TrainConfig) (iteration : ℕ) : ℝ :=
  ((iteration : ℝ) - (c.warmup_iters : ℝ)) /
    ((c.lr_decay_iters : ℝ) - (c.warmup_iters : ℝ))

open Classical in
/-- Shallow embedding of `Trainer.get_lr` from `CLIP/train.py`.
`none` models a crash: either the `ZeroDivisionError` raised when
`lr_decay_iters == warmup_iters`, or the failure of the
`assert 0 <= decay_ratio <= 1` contract. -/
noncomputable def get_lr (c : TrainConfig) (iteration : ℕ) : Option ℝ :=
  if iteration < c.warmup_iters then
    some (c.lr * (iteration : ℝ) / (c.warmup_iters : ℝ))
  else if c.lr_decay_iters < iteration then
    some c.min_lr
  else if ((c.lr_decay_iters : ℝ) - (c.warmup_iters : ℝ)) = 0 then
    none
  else if 0 ≤ decay_ratio c iteration ∧ decay_ratio c iteration ≤ 1 then
    some (c.min_lr +
      (0.5 * (1 + Real.cos (Real.pi * decay_ratio c iteration))) *
        (c.lr - c.min_lr))
  else
    none

end CLIPTrain

namespace CLIPTrain

/-- Claim C6: under the precondition `warmup_iters < lr_decay_iters`, for
every iteration `i` with `warmup_iters ≤ i ≤ lr_decay_iters` the decay
fraction lies in `[0, 1]`, so the fatal assertion guarding the cosine
branch of `Trainer.get_lr` never fires and the scheduler returns a value
on this whole range. -/
theorem get_lr_cosine_assert_safe (c : TrainConfig)
    (hwd : c.warmup_iters < c.lr_decay_iters) (i : ℕ)
    (h1 : c.warmup_iters ≤ i) (h2 : i ≤ c.lr_decay_iters) :
    0 ≤ decay_ratio c i ∧ decay_ratio c i ≤ 1 ∧
      (get_lr c i).isSome = true := by
  have hden : (0 : ℝ) < (c.lr_decay_iters : ℝ) - (c.warmup_iters : ℝ) := by
    have : (c.warmup_iters : ℝ) < (c.lr_decay_iters : ℝ) := by
      exact_mod_cast hwd
    linarith
  have hnum : (0 : ℝ) ≤ (i : ℝ) - (c.warmup_iters : ℝ) := by
    have : (c.warmup_iters : ℝ) ≤ (i : ℝ) := by exact_mod_cast h1
    linarith
  have hle : (i : ℝ) - (c.warmup_iters : ℝ) ≤
      (c.lr_decay_iters : ℝ) - (c.warmup_iters : ℝ) := by
    have : (i : ℝ) ≤ (c.lr_decay_iters : ℝ) := by exact_mod_cast h2
    linarith
  have hr0 : 0 ≤ decay_ratio c i := div_nonneg hnum hden.le
  have hr1 : decay_ratio c i ≤ 1 := by
    rw [decay_ratio, div_le_one hden]; exact hle
  refine ⟨hr0, hr1, ?_⟩
  rw [get_lr]
  rcases lt_or_ge i c.warmup_iters with hlt | hge
  · rw [if_pos hlt]; rfl
  · rw [if_neg (not_lt.mpr hge)]
    rcases lt_or_ge c.lr_decay_iters i with hdi | hid
    · rw [if_pos hdi]; rfl
    · rw [if_neg (not_lt.mpr hid), if_neg (by exact ne_of_gt hden),
        if_pos ⟨hr0, hr1⟩]
      rfl

/-- Witness for `get_lr_cosine_assert_safe` at the default configuration
and iteration 65000. -/
theorem get_lr_cosine_assert_safe_witness :
    0 ≤ decay_ratio defaultConfig 65000 ∧
      decay_ratio defaultConfig 65000 ≤ 1 ∧
      (get_lr defaultConfig 65000).isSome = true :=
  get_lr_cosine_assert_safe defaultConfig
    (by norm_num [defaultConfig]) 65000
    (by norm_num [defaultConfig]) (by norm_num [defaultConfig])

/-- Claim C4, counterexample: at the default configuration (which satisfies
`lr ≥ min_lr ≥ 0`) the scheduler returns `0` at iteration `0`, which is
strictly below `min_lr = 1e-6`, refuting the part of the claim that says
the returned rate never goes below `min_lr` for any non-negative
iteration. -/
theorem get_lr_floor_counterexample :
    defaultConfig.min_lr ≤ defaultConfig.lr ∧ 0 ≤ defaultConfig.min_lr ∧
      get_lr defaultConfig 0 = some 0 ∧ ¬ defaultConfig.min_lr ≤ (0 : ℝ) := by
  refine ⟨by norm_num [defaultConfig], by norm_num [defaultConfig], ?_,
    by norm_num [defaultConfig]⟩
  rw [get_lr, if_pos (by norm_num [defaultConfig])]
  norm_num

/-- Claim C4 (amended): beyond the decay horizon `Trainer.get_lr` returns
exactly `min_lr` (given `warmup_iters ≤ lr_decay_iters`), and from the end
of warmup onwards (`i ≥ warmup_iters`) every value the scheduler returns
is at least `min_lr`; during warmup the rate can drop below `min_lr`,
reaching `0` at iteration `0`. -/
theorem get_lr_floor_amended (c : TrainConfig)
    (h1 : c.min_lr ≤ c.lr) (h2 : 0 ≤ c.min_lr)
    (hwd : c.warmup_iters ≤ c.lr_decay_iters) (i : ℕ) (r : ℝ)
    (hw : c.warmup_iters ≤ i) (hr : get_lr c i = some r) :
    (c.lr_decay_iters < i → get_lr c i = some c.min_lr) ∧ c.min_lr ≤ r := by
  constructor
  · intro hdi
    rw [get_lr, if_neg (not_lt.mpr hw), if_pos hdi]
  · rw [get_lr, if_neg (not_lt.mpr hw)] at hr
    by_cases hdi : c.lr_decay_iters < i
    · rw [if_pos hdi] at hr
      exact le_of_eq (Option.some.inj hr)
    · rw [if_neg hdi] at hr
      by_cases hz : ((c.lr_decay_iters : ℝ) - (c.warmup_iters : ℝ)) = 0
      · rw [if_pos hz] at hr; exact absurd hr (by simp)
      · rw [if_neg hz] at hr
        by_cases hg : 0 ≤ decay_ratio c i ∧ decay_ratio c i ≤ 1
        · rw [if_pos hg] at hr
          have hreq := Option.some.inj hr
          have hcos := Real.neg_one_le_cos (Real.pi * decay_ratio c i)
          have hcoeff : (0 : ℝ) ≤
              0.5 * (1 + Real.cos (Real.pi * decay_ratio c i)) := by
            nlinarith
          nlinarith [mul_nonneg hcoeff (sub_nonneg.mpr h1)]
        · rw [if_neg hg] at hr; exact absurd hr (by simp)

/-- Witness for `get_lr_floor_amended` at the default configuration and
iteration 200000, beyond the decay horizon. -/
theorem get_lr_floor_amended_witness :
    defaultConfig.min_lr ≤ defaultConfig.lr ∧
      get_lr defaultConfig 200000 = some defaultConfig.min_lr := by
  have hr : get_lr defaultConfig 200000 = some defaultConfig.min_lr := by
    rw [get_lr, if_neg (by norm_num [defaultConfig]),
      if_pos (by norm_num [defaultConfig])]
  exact ⟨by norm_num [defaultConfig],
    (get_lr_floor_amended defaultConfig (by norm_num [defaultConfig])
      (by norm_num [defaultConfig]) (by norm_num [defaultConfig]) 200000
      defaultConfig.min_lr (by norm_num [defaultConfig]) hr).1
      (by norm_num [defaultConfig])⟩

/-- A small concrete configuration used by witnesses for the warmup
segment. -/
noncomputable def witnessConfig : TrainConfig :=
  { lr := 1, min_lr := 0, warmup_iters := 10, lr_decay_iters := 20 }

/-- Claim C5: with `lr > 0` and `warmup_iters > 0`, `Trainer.get_lr`
returns `0` at iteration `0`, and on the warmup segment `i < j <
warmup_iters` it returns the linear ramp `lr * iteration / warmup_iters`,
which is strictly increasing. -/
theorem get_lr_warmup_strict_mono (c : TrainConfig)
    (hlr : 0 < c.lr) (hw : 0 < c.warmup_iters) (i j : ℕ)
    (hij : i < j) (hj : j < c.warmup_iters) :
    get_lr c 0 = some 0 ∧
      get_lr c i = some (c.lr * (i : ℝ) / (c.warmup_iters : ℝ)) ∧
      get_lr c j = some (c.lr * (j : ℝ) / (c.warmup_iters : ℝ)) ∧
      c.lr * (i : ℝ) / (c.warmup_iters : ℝ) <
        c.lr * (j : ℝ) / (c.warmup_iters : ℝ) := by
  have hwR : (0 : ℝ) < (c.warmup_iters : ℝ) := by exact_mod_cast hw
  have h0 : get_lr c 0 = some 0 := by
    rw [get_lr, if_pos hw]; norm_num
  have hi : i < c.warmup_iters := lt_trans hij hj
  refine ⟨h0, by rw [get_lr, if_pos hi], by rw [get_lr, if_pos hj], ?_⟩
  have hijR : (i : ℝ) < (j : ℝ) := by exact_mod_cast hij
  have hnum : c.lr * (i : ℝ) < c.lr * (j : ℝ) :=
    mul_lt_mul_of_pos_left hijR hlr
  exact (div_lt_div_iff_of_pos_right hwR).mpr hnum

/-- The initial value `best_val_accuracy = 1e-9` in `Trainer.train`. -/
def best_val_accuracy_init : ℚ := 1 / 1000000000

/-- Shallow embedding of the checkpoint decision in `Trainer.train`
(`CLIP/train.py` lines 177-186), applied to the sequence of average
accuracies produced by successive evaluations: for each accuracy the code
tests `avg_accuracy > best_val_accuracy` and writes a checkpoint when the
test passes.  `best_val_accuracy` is never reassigned anywhere in
`Trainer.train`, so the threshold stays at its initial value for the whole
run; the recursion mirrors that. -/
def checkpointSaves (best : ℚ) : List ℚ → List Bool
  | [] => []
  | a :: rest => decide (best < a) :: checkpointSaves best rest

/-- Claim C1, code-bug evidence: on the accuracy sequence
`[0.40, 0.40, 0.55, 0.50, 0.60]` the code writes a checkpoint at every one
of the five evaluations, because `best_val_accuracy` is never updated
after a save and every accuracy stays above the initial `1e-9`; the claim
(and the evident intent of the `best_val_accuracy` variable) is that
checkpoints are written exactly at the first 0.40, at 0.55 and at 0.60. -/
theorem checkpointSaves_fires_every_time :
    checkpointSaves best_val_accuracy_init
        [2/5, 2/5, 11/20, 1/2, 3/5] =
      [true, true, true, true, true] := by
  norm_num [checkpointSaves, best_val_accuracy_init]

/-- Shallow embedding of `Trainer.evaluate` from `CLIP/train.py`,
parametrised by the per-batch results the model produces on the
evaluation loader: element `i` of the list is the pair
`(loss.item(), correct.sum().item() / correct.size(0))` for batch `i`.
The loop runs `for iteration in range(length - 1)`, so only the first
`length - 1` batches are consumed, and both final sums are divided by
`length`. -/
def evaluate (batches : List (ℚ × ℚ)) : ℚ × ℚ :=
  let length := batches.length
  let processed := batches.take (length - 1)
  ((processed.map Prod.fst).sum / (length : ℚ),
   (processed.map Prod.snd).sum / (length : ℚ))

/-- Claim C2, counterexample: on an evaluation split of two batches with
per-batch results `(loss, accuracy)` of `(2, 1)` and `(10, 0)`, the code
processes only the first batch (totals 2 and 1) yet divides by the full
batch count 2, returning `(1, 1/2)`; the claim demands division by the
one batch actually processed, which would give `(2, 1)`. -/
theorem evaluate_divisor_counterexample :
    evaluate [(2, 1), (10, 0)] = (1, 1/2) ∧
      ((1 : ℚ), (1 : ℚ)/2) ≠ ((2 : ℚ), (1 : ℚ)) := by
  constructor
  · norm_num [evaluate]
  · norm_num [Prod.ext_iff]

/-- Claim C2 (amended): for every non-empty evaluation split,
`Trainer.evaluate` returns the accumulated totals of the first
`length - 1` batches (the final batch being skipped) divided by `length`,
the total number of batches in the split — one more than the number of
batches actually processed. -/
theorem evaluate_amended (batches : List (ℚ × ℚ)) (h : batches ≠ []) :
    evaluate batches =
      (((batches.take (batches.length - 1)).map Prod.fst).sum /
          (((batches.length - 1 : ℕ) : ℚ) + 1),
       ((batches.take (batches.length - 1)).map Prod.snd).sum /
          (((batches.length - 1 : ℕ) : ℚ) + 1)) := by
  have hlen : 0 < batches.length := List.length_pos.mpr h
  have h1 : ((batches.length - 1 : ℕ) : ℚ) + 1 = (batches.length : ℚ) := by
    exact_mod_cast Nat.succ_pred_eq_of_pos hlen
  simp only [evaluate]
  rw [h1]

/-- Witness for `evaluate_amended` on a concrete two-batch split. -/
theorem evaluate_amended_witness :
    ([((2 : ℚ), (1 : ℚ)), (10, 0)] ≠ []) ∧
      evaluate [((2 : ℚ), (1 : ℚ)), (10, 0)] = (1, 1/2) := by
  refine ⟨by simp, ?_⟩
  rw [evaluate_amended [((2 : ℚ), (1 : ℚ)), (10, 0)] (by simp)]
  norm_num

/-- The list of batch sizes a (non-`drop_last`) `DataLoader` yields over
one pass of a dataset with `n` elements and batch size `bs`: `n / bs`
full batches followed by one short batch of `n % bs` elements when `bs`
does not divide `n`. -/
def chunkSizes (n bs : ℕ) : List ℕ :=
  List.replicate (n / bs) bs ++ (if n % bs = 0 then [] else [n % bs])

/-- Shallow embedding of the batch-fetch logic of `Trainer.train_loop`
(`CLIP/train.py` lines 68-77), abstracted to batch sizes.  The state is
the list of batch sizes the current iterator still has to yield.  `next`
on an exhausted iterator raises `StopIteration`, which the handler
answers by building a fresh iterator and calling `next` again; a
successful `next` that returns fewer than `batch_size` elements likewise
causes a fresh iterator and a second `next` whose result is returned with
no further size check.  `none` models an uncaught `StopIteration`
(possible only for an empty dataset). -/
def train_loop_fetch (n bs : ℕ) (st : List ℕ) : Option (ℕ × List ℕ) :=
  match st with
  | [] =>
    match chunkSizes n bs with
    | [] => none
    | b :: rest => some (b, rest)
  | b :: rest =>
    if b < bs then
      match chunkSizes n bs with
      | [] => none
      | b2 :: rest2 => some (b2, rest2)
    else
      some (b, rest)

/-- `k` successive calls of `train_loop_fetch`, starting from the fresh
iterator over a full pass built in `Trainer.__init__`
(`self.batch_iter = iter(self.train_loader)`).  Returns the list of batch
sizes handed to the caller and the final iterator state; a `none` (crash)
leaves the run unchanged. -/
def train_loop_run (n bs : ℕ) : ℕ → List ℕ × List ℕ
  | 0 => ([], chunkSizes n bs)
  | k + 1 =>
    let out := train_loop_run n bs k
    match train_loop_fetch n bs out.2 with
    | none => (out.1, out.2)
    | some (b, st2) => (out.1 ++ [b], st2)

theorem chunkSizes_eq_cons (n bs : ℕ) (hbs : 0 < bs) (hn : bs ≤ n) :
    ∃ rest, chunkSizes n bs = bs :: rest := by
  have hq : 0 < n / bs := Nat.div_pos hn hbs
  obtain ⟨m, hm⟩ := Nat.exists_eq_succ_of_ne_zero hq.ne'
  refine ⟨List.replicate m bs ++ (if n % bs = 0 then [] else [n % bs]), ?_⟩
  rw [chunkSizes, hm, List.replicate_succ, List.cons_append]

theorem mem_chunkSizes (n bs b : ℕ) (hbs : 0 < bs)
    (hb : b ∈ chunkSizes n bs) : b = bs ∨ b < bs := by
  rw [chunkSizes, List.mem_append] at hb
  rcases hb with hb | hb
  · exact Or.inl (List.eq_of_mem_replicate hb)
  · by_cases hz : n % bs = 0
    · rw [if_pos hz] at hb; exact absurd hb (List.not_mem_nil b)
    · rw [if_neg hz] at hb
      rcases List.mem_singleton.mp hb with rfl
      exact Or.inr (Nat.mod_lt n hbs)

theorem train_loop_fetch_full (n bs : ℕ) (hbs : 0 < bs) (hn : bs ≤ n)
    (st : List ℕ) (hst : st <:+ chunkSizes n bs) :
    ∃ st2, train_loop_fetch n bs st = some (bs, st2) ∧
      st2 <:+ chunkSizes n bs := by
  obtain ⟨rest0, hc⟩ := chunkSizes_eq_cons n bs hbs hn
  have hrest0 : rest0 <:+ chunkSizes n bs := by
    rw [hc]; exact List.suffix_cons bs rest0
  match st with
  | [] =>
    refine ⟨rest0, ?_, hrest0⟩
    rw [train_loop_fetch, hc]
  | b :: rest =>
    have hbmem : b ∈ chunkSizes n bs :=
      hst.subset (List.mem_cons_self b rest)
    have hrest : rest <:+ chunkSizes n bs :=
      (List.suffix_cons b rest).trans hst
    by_cases hlt : b < bs
    · refine ⟨rest0, ?_, hrest0⟩
      rw [train_loop_fetch, if_pos hlt, hc]
    · have hb : b = bs := by
        rcases mem_chunkSizes n bs b hbs hbmem with hb | hb
        · exact hb
        · exact absurd hb hlt
      refine ⟨rest, ?_, hrest⟩
      rw [train_loop_fetch, if_neg hlt, hb]

theorem train_loop_run_inv (n bs k : ℕ) (hbs : 0 < bs) (hn : bs ≤ n) :
    (train_loop_run n bs k).1 = List.replicate k bs ∧
      (train_loop_run n bs k).2 <:+ chunkSizes n bs := by
  induction k with
  | zero => exact ⟨rfl, List.suffix_refl _⟩
  | succ k ih =>
    obtain ⟨h1, h2⟩ := ih
    obtain ⟨st2, hf, hs2⟩ := train_loop_fetch_full n bs hbs hn _ h2
    rw [train_loop_run]
    simp only [hf, h1]
    exact ⟨by rw [List.replicate_succ'], hs2⟩

/-- Claim C3 (amended): provided the dataset holds at least `batch_size`
elements (`bs ≤ n`, `0 < bs`), every one of `k` successive calls of the
batch-fetch logic of `Trainer.train_loop` succeeds and hands the caller a
batch of exactly `bs` elements, for arbitrarily large `k` — short
terminal batches and exhaustion transparently restart a fresh pass.  When
the whole dataset is smaller than one batch this fails (see the
counterexample). -/
theorem train_loop_always_full (n bs k : ℕ) (hbs : 0 < bs) (hn : bs ≤ n) :
    (train_loop_run n bs k).1 = List.replicate k bs :=
  (train_loop_run_inv n bs k hbs hn).1

/-- Witness for `train_loop_always_full`: dataset of 5 elements, batch
size 2, seven calls — the pass has only three batches (sizes 2, 2, 1),
yet all seven returned batches have size 2. -/
theorem train_loop_always_full_witness :
    0 < 2 ∧ 2 ≤ 5 ∧ (train_loop_run 5 2 7).1 = List.replicate 7 2 :=
  ⟨by decide, by decide, train_loop_always_full 5 2 7 (by decide) (by decide)⟩

/-- Claim C3, counterexample: with a dataset of one element and batch
size 2, the very first call returns a batch of size 1 — the restart logic
returns the first batch of the fresh pass with no further size check, and
that batch is itself short — so the caller does observe a batch smaller
than the configured size. -/
theorem train_loop_short_batch_counterexample :
    (train_loop_run 1 2 1).1 = [1] ∧ (1 : ℕ) ≠ 2 := by
  decide

/-- Witness for `get_lr_warmup_strict_mono` at a concrete configuration
with warmup horizon 10, iterations 3 and 7. -/
theorem get_lr_warmup_strict_mono_witness :
    get_lr witnessConfig 0 = some 0 ∧
      get_lr witnessConfig 3 =
        some (witnessConfig.lr * ((3 : ℕ) : ℝ) / (witnessConfig.warmup_iters : ℝ)) ∧
      get_lr witnessConfig 7 =
        some (witnessConfig.lr * ((7 : ℕ) : ℝ) / (witnessConfig.warmup_iters : ℝ)) ∧
      witnessConfig.lr * ((3 : ℕ) : ℝ) / (witnessConfig.warmup_iters : ℝ) <
        witnessConfig.lr * ((7 : ℕ) : ℝ) / (witnessConfig.warmup_iters : ℝ) :=
  get_lr_warmup_strict_mono witnessConfig (by norm_num [witnessConfig])
    (by norm_num [witnessConfig]) 3 7 (by norm_num)
    (by norm_num [witnessConfig])

end CLIPTrain

namespace ALBEF

/-- `F.normalize(v, dim=-1)`: divide a row by the maximum of its L2 norm
and the default `eps = 1e-12`. -/
noncomputable def l2normalize {D : ℕ} (v : Fin D → ℝ) : Fin D → ℝ :=
  fun d => v d / max (Real.sqrt (∑ e, v e ^ 2)) 1e-12

/-- Row-wise `F.normalize` of a batch of embeddings, as applied to
`img_embds` and `txt_embds` in `ALBEF.forward`. -/
noncomputable def normalizeRows {N D : ℕ} (m : Fin N → Fin D → ℝ) :
    Fin N → Fin D → ℝ :=
  fun i => l2normalize (m i)

/-- `logits_per_image = self.logit_scale.exp() * img_embds @ txt_embds.T`
from `ALBEF.forward`, element-wise over already-normalized embeddings:
Python evaluates `(scale * img_embds) @ txt_embds.T`. -/
noncomputable def logits_per_image {N D : ℕ} (logit_scale : ℝ)
    (img_n txt_n : Fin N → Fin D → ℝ) : Fin N → Fin N → ℝ :=
  fun i j => ∑ d, (Real.exp logit_scale * img_n i d) * txt_n j d

/-- `F.cross_entropy(logits, labels)` with the default mean reduction:
mean over rows of `log (∑ exp logits) - logits[label]`. -/
noncomputable def cross_entropy {N C : ℕ} (logits : Fin N → Fin C → ℝ)
    (labels : Fin N → Fin C) : ℝ :=
  (∑ i, (Real.log (∑ j, Real.exp (logits i j)) - logits i (labels i))) /
    (N : ℝ)

/-- The logit selected by an integer class id: PyTorch class-index
targets must lie in `[0, V)` (out-of-range ids are a runtime error there;
the value chosen here for them is irrelevant to every theorem below). -/
noncomputable def pickLogit {V : ℕ} (row : Fin V → ℝ) (t : ℤ) : ℝ :=
  if h : 0 ≤ t ∧ t.toNat < V then row ⟨t.toNat, h.2⟩ else 0

/-- `F.cross_entropy(logits.view(-1, V), targets.view(-1), ignore_index=-1)`
from the MLM branch of `ALBEF.forward`: positions whose target id equals
`-1` contribute nothing, and the mean is taken over the non-ignored
positions. -/
noncomputable def mlm_cross_entropy {M V : ℕ} (logits : Fin M → Fin V → ℝ)
    (targets : Fin M → ℤ) : ℝ :=
  (∑ p ∈ Finset.univ.filter (fun p => targets p ≠ -1),
      (Real.log (∑ j, Real.exp (logits p j)) -
        pickLogit (logits p) (targets p))) /
    (((Finset.univ.filter (fun p => targets p ≠ -1)).card : ℕ) : ℝ)

/-- `itc_loss` in `ALBEF.forward`: the average of the two directional
cross-entropies over `logits_per_image` and its transpose
`logits_per_text`, with labels `torch.arange(N)`. -/
noncomputable def itc_loss {N D : ℕ} (logit_scale : ℝ)
    (img_embds txt_embds : Fin N → Fin D → ℝ) : ℝ :=
  (cross_entropy
      (logits_per_image logit_scale (normalizeRows img_embds)
        (normalizeRows txt_embds)) (fun i => i) +
    cross_entropy
      (fun i j =>
        logits_per_image logit_scale (normalizeRows img_embds)
          (normalizeRows txt_embds) j i) (fun i => i)) / 2

/-- The tuple returned by `ALBEF.forward`
(`tinymm/ALBEF/model.py` lines 100-109). -/
structure ForwardOutput (N M V : ℕ) where
  logits_per_image : Fin N → Fin N → ℝ
  logits_per_text : Fin N → Fin N → ℝ
  labels : Fin N → Fin N
  logits : Fin M → Fin V → ℝ
  targets : Fin M → ℤ
  itc_loss : ℝ
  mlm_loss : ℝ
  total_loss : ℝ

/-- Shallow embedding of `ALBEF.forward` from `tinymm/ALBEF/model.py`,
parametrised by the outputs of the external networks: `img_embds` and
`txt_embds` are the encoder projections (before `F.normalize`), and
`mlm_logits` is `self.txt_encoder.encoder.lm_head(out[:, -text_seq_len:, :])`
flattened over the batch and sequence axes, exactly the tensor fed to the
MLM cross-entropy.  The encoders, the fusion blocks and the `lm_head` live
outside this repository's two source files, so their outputs are inputs
here; everything from line 73 of the source onwards is modelled. -/
noncomputable def forward {N D M V : ℕ} (logit_scale : ℝ)
    (img_embds txt_embds : Fin N → Fin D → ℝ)
    (mlm_logits : Fin M → Fin V → ℝ) (targets : Fin M → ℤ) :
    ForwardOutput N M V :=
  { logits_per_image :=
      logits_per_image logit_scale (normalizeRows img_embds)
        (normalizeRows txt_embds)
    logits_per_text := fun i j =>
      logits_per_image logit_scale (normalizeRows img_embds)
        (normalizeRows txt_embds) j i
    labels := fun i => i
    logits := mlm_logits
    targets := targets
    itc_loss := itc_loss logit_scale img_embds txt_embds
    mlm_loss := mlm_cross_entropy mlm_logits targets
    total_loss := itc_loss logit_scale img_embds txt_embds +
      mlm_cross_entropy mlm_logits targets }

/-- Claim C7: the total loss returned by `ALBEF.forward` is exactly the
unweighted sum of the contrastive loss and the generative loss, and that
sum is the single scalar handed back for backpropagation. -/
theorem forward_total_is_unweighted_sum {N D M V : ℕ} (logit_scale : ℝ)
    (img_embds txt_embds : Fin N → Fin D → ℝ)
    (mlm_logits : Fin M → Fin V → ℝ) (targets : Fin M → ℤ) :
    (forward logit_scale img_embds txt_embds mlm_logits targets).total_loss =
      (forward logit_scale img_embds txt_embds mlm_logits targets).itc_loss +
        (forward logit_scale img_embds txt_embds mlm_logits targets).mlm_loss :=
  rfl

/-- The similarity matrix exactly as the specification words it:
`temperature_scale · I·Tᵗ` over normalized embeddings. -/
noncomputable def specSimilarity {N D : ℕ} (tscale : ℝ)
    (im tx : Fin N → Fin D → ℝ) : Fin N → Fin N → ℝ :=
  fun i j => tscale * ∑ d, im i d * tx j d

/-- The contrastive loss exactly as the specification words it: the
average of cross-entropy over the similarity matrix with identity labels
(image-to-text) and cross-entropy over its transpose (text-to-image),
each normalized over `N` classes. -/
noncomputable def specContrastiveLoss {N D : ℕ} (tscale : ℝ)
    (im tx : Fin N → Fin D → ℝ) : ℝ :=
  (cross_entropy (specSimilarity tscale im tx) (fun i => i) +
    cross_entropy (fun i j => specSimilarity tscale im tx j i)
      (fun i => i)) / 2

/-- Claim C8: the contrastive loss computed by `ALBEF.forward` equals the
specification's formula — the average of the two directional
cross-entropies over `exp(logit_scale) · I·Tᵗ` with identity labels —
applied to the normalized embeddings `I` and `T`. -/
theorem forward_itc_matches_spec {N D M V : ℕ} (logit_scale : ℝ)
    (img_embds txt_embds : Fin N → Fin D → ℝ)
    (mlm_logits : Fin M → Fin V → ℝ) (targets : Fin M → ℤ) :
    (forward logit_scale img_embds txt_embds mlm_logits targets).itc_loss =
      specContrastiveLoss (Real.exp logit_scale)
        (normalizeRows img_embds) (normalizeRows txt_embds) := by
  have h1 : logits_per_image logit_scale (normalizeRows img_embds)
        (normalizeRows txt_embds) =
      specSimilarity (Real.exp logit_scale) (normalizeRows img_embds)
        (normalizeRows txt_embds) := by
    funext i j
    rw [logits_per_image, specSimilarity, Finset.mul_sum]
    exact Finset.sum_congr rfl fun d _ => by ring
  show itc_loss logit_scale img_embds txt_embds = _
  rw [itc_loss, specContrastiveLoss, h1]

/-- Claim C9: two forward passes that differ only in the predicted
vocabulary logits at positions whose target id is the sentinel `-1`
produce identical generative losses — ignored positions have no influence
on the MLM loss. -/
theorem forward_mlm_ignores_sentinel {N D M V : ℕ} (logit_scale : ℝ)
    (img_embds txt_embds : Fin N → Fin D → ℝ)
    (l1 l2 : Fin M → Fin V → ℝ) (targets : Fin M → ℤ)
    (h : ∀ p, targets p ≠ -1 → l1 p = l2 p) :
    (forward logit_scale img_embds txt_embds l1 targets).mlm_loss =
      (forward logit_scale img_embds txt_embds l2 targets).mlm_loss := by
  show mlm_cross_entropy l1 targets = mlm_cross_entropy l2 targets
  rw [mlm_cross_entropy, mlm_cross_entropy]
  congr 1
  refine Finset.sum_congr rfl fun p hp => ?_
  rw [Finset.mem_filter] at hp
  rw [h p hp.2]

/-- Target vector used by the witness of
`forward_mlm_ignores_sentinel`: position 0 is the sentinel, position 1 a
real token id. -/
def w9_targets : Fin 2 → ℤ := ![-1, 0]

/-- The shared (non-ignored) logit row of the witness. -/
noncomputable def w9_row : Fin 2 → ℝ := ![1, 2]

/-- First witness logit tensor: arbitrary values at the ignored position. -/
noncomputable def w9_logits1 : Fin 2 → Fin 2 → ℝ := ![![5, 7], w9_row]

/-- Second witness logit tensor: different values at the ignored
position, identical elsewhere. -/
noncomputable def w9_logits2 : Fin 2 → Fin 2 → ℝ := ![![0, 0], w9_row]

/-- A 1×1 embedding used by the witness. -/
noncomputable def w9_emb : Fin 1 → Fin 1 → ℝ := ![![1]]

/-- Witness for `forward_mlm_ignores_sentinel` on concrete tensors that
differ exactly at the single sentinel-labelled position. -/
theorem forward_mlm_ignores_sentinel_witness :
    w9_targets 0 = -1 ∧ w9_logits1 1 = w9_logits2 1 ∧
      (forward 0 w9_emb w9_emb w9_logits1 w9_targets).mlm_loss =
        (forward 0 w9_emb w9_emb w9_logits2 w9_targets).mlm_loss := by
  refine ⟨rfl, rfl, ?_⟩
  exact forward_mlm_ignores_sentinel 0 w9_emb w9_emb w9_logits1 w9_logits2
    w9_targets (fun p hp => by
      fin_cases p
      · exact absurd rfl hp
      · rfl)

/-- Claim C10: for a batch of size 1 the contrastive loss computed by
`ALBEF.forward` is exactly 0 whatever the embedding values: both
directional cross-entropies over the 1×1 similarity matrix vanish, so the
degenerate batch silently yields a vacuous contrastive objective. -/
theorem forward_itc_zero_on_singleton {D M V : ℕ} (logit_scale : ℝ)
    (img_embds txt_embds : Fin 1 → Fin D → ℝ)
    (mlm_logits : Fin M → Fin V → ℝ) (targets : Fin M → ℤ) :
    (forward logit_scale img_embds txt_embds mlm_logits targets).itc_loss
      = 0 := by
  show itc_loss logit_scale img_embds txt_embds = 0
  rw [itc_loss]
  simp [cross_entropy, Fin.sum_univ_one, Real.log_exp]

end ALBEF
